import Mathlib

/-!
Verification of the blog backend (accounts + blog modules).

The data model and operations below are shallow embeddings of the Django
views and serializers in `src/blog` and `src/accounts`: each Lean function
mirrors one Python handler or serializer method, with the relational store
passed explicitly as lists of rows.
-/

namespace Blog

/-- A `Post` row, with the fields the views read or write.
`tagIds` is the many-to-many relation to `Tag`. -/
structure Post where
  id : Nat
  authorId : Nat
  title : String
  content : String
  status : String
  viewsCount : Nat
  likesCount : Nat
  tagIds : List Nat
deriving Repr, DecidableEq

/-- A `Tag` row (id, name, slug). -/
structure Tag where
  id : Nat
  name : String
  slug : String
deriving Repr, DecidableEq

/-- Character-list prefix test, used for substring search. -/
def hasPrefixC : List Char → List Char → Bool
  | [], _ => true
  | _ :: _, [] => false
  | a :: as, b :: bs => a == b && hasPrefixC as bs

/-- Character-list substring test. -/
def hasSubC (needle : List Char) : List Char → Bool
  | [] => needle.isEmpty
  | b :: bs => hasPrefixC needle (b :: bs) || hasSubC needle bs

/-- Django `__icontains`: case-insensitive substring match. -/
def icontains (hay needle : String) : Bool :=
  hasSubC needle.toLower.data hay.toLower.data

/-- Does post `p` carry a tag whose slug is `s`? (`tags__slug` filter). -/
def hasTagSlug (tags : List Tag) (p : Post) (s : String) : Bool :=
  p.tagIds.any (fun tid => tags.any (fun t => t.id == tid && t.slug == s))

/-- Does post `p` match the search query `s` in title, content or a tag
name, case-insensitively? (`SearchFilter` over the declared fields). -/
def searchMatch (tags : List Tag) (p : Post) (s : String) : Bool :=
  icontains p.title s || icontains p.content s ||
    p.tagIds.any (fun tid => tags.any (fun t => t.id == tid && icontains t.name s))

/-- Embedding of `PostViewSet.get_queryset` (src/blog/views.py lines 22-56).
`isList` is whether `self.action == 'list'`; `auth` is the authenticated
caller's id, `none` for an anonymous request; the four `Option` arguments
are the `status`, `author`, `tag` and `search` query parameters (`none`
when absent or empty, both falsy in Python). -/
def getQueryset (isList : Bool) (auth : Option Nat)
    (statusF : Option String) (authorF : Option Nat)
    (tagF : Option String) (searchF : Option String)
    (posts : List Post) (tags : List Tag) : List Post :=
  let q := posts
  let q := match statusF with
    | some s => q.filter (fun p => p.status == s)
    | none =>
      if isList then
        match auth with
        | none => q.filter (fun p => p.status == "published")
        | some u => q.filter (fun p => p.status == "published" || p.authorId == u)
      else q
  let q := match authorF with
    | some a => q.filter (fun p => p.authorId == a)
    | none => q
  let q := match tagF with
    | some ts => q.filter (fun p => hasTagSlug tags p ts)
    | none => q
  match searchF with
  | some s => q.filter (fun p => searchMatch tags p s)
  | none => q

/-- A concrete draft post, used as the counterexample input for C1. -/
def cDraftPost : Post :=
  { id := 1, authorId := 2, title := "t", content := "c", status := "draft",
    viewsCount := 0, likesCount := 0, tagIds := [] }

/-- C1 counterexample: an unauthenticated `list` call that supplies the
filter `status=draft` receives a draft post — `get_queryset` applies an
explicit `status` query parameter without restricting anonymous callers
to published posts, so the claim as stated is false. -/
theorem C1_draft_leak :
    cDraftPost ∈ getQueryset true none (some "draft") none none none [cDraftPost] [] ∧
      cDraftPost.status ≠ "published" := by
  decide

/-- C1 (amended): for every `list_posts` call by an unauthenticated caller
in which the `status` filter is not supplied, with any combination of the
`author`, `tag` and `search` filters, every post in the result has status
`published`. -/
theorem C1_unauthenticated_list_published
    (authorF : Option Nat) (tagF searchF : Option String)
    (posts : List Post) (tags : List Tag) :
    ∀ p ∈ getQueryset true none none authorF tagF searchF posts tags,
      p.status = "published" := by
  intro p hp
  cases authorF <;> cases tagF <;> cases searchF <;>
    simp only [getQueryset, List.mem_filter, beq_iff_eq, if_true] at hp <;> tauto

/-- A concrete published post, used in witnesses. -/
def cPubPost : Post :=
  { id := 3, authorId := 2, title := "pub", content := "body", status := "published",
    viewsCount := 5, likesCount := 1, tagIds := [] }

/-- Witness for C1 (amended) at a concrete input: the published post is in
the anonymous list result and the theorem yields its status. -/
theorem C1_unauthenticated_list_published_witness :
    cPubPost.status = "published" :=
  C1_unauthenticated_list_published none none none [cDraftPost, cPubPost] []
    cPubPost (by decide)

/-- The like rows and the denormalized `likes_count` of one post:
`likeUsers` is the set of user ids holding a `Like` row for the post
(unique per (post, user) in the schema). -/
structure LikeState where
  likesCount : Nat
  likeUsers : List Nat
deriving Repr, DecidableEq

/-- The JSON body returned by the like action. -/
structure LikeResult where
  status : String
  likesCount : Nat
deriving Repr, DecidableEq

/-- Embedding of `PostViewSet.like` (src/blog/views.py lines 89-106) for caller `u` on
the post whose like rows and counter are `s`: `get_or_create` finds or
creates the (post, user) row; on an existing row it is deleted and the
counter set to `max 0 (count - 1)`, else the counter is incremented. -/
def likePost (u : Nat) (s : LikeState) : LikeState × LikeResult :=
  if u ∈ s.likeUsers then
    let c := max 0 (s.likesCount - 1)
    ({ likesCount := c, likeUsers := s.likeUsers.erase u },
     { status := "unliked", likesCount := c })
  else
    let c := s.likesCount + 1
    ({ likesCount := c, likeUsers := u :: s.likeUsers },
     { status := "liked", likesCount := c })

/-- A finite sequence of like-toggle calls, applied in order. -/
def runToggles (us : List Nat) (s : LikeState) : LikeState :=
  us.foldl (fun st u => (likePost u st).1) s

/-- C2: when no Like row exists for the caller, `like` creates the row,
increments the counter and returns `liked` with the new count, and a
second call by the same caller deletes the row and returns `unliked`
with the original count (round trip); when a row exists, `like` deletes
it and sets the counter to `max 0 (count - 1)`, returning `unliked`. -/
theorem C2_like_toggle (s : LikeState) (u : Nat) :
    (u ∉ s.likeUsers →
      (likePost u s).2 = { status := "liked", likesCount := s.likesCount + 1 } ∧
      u ∈ (likePost u s).1.likeUsers ∧
      (likePost u s).1.likesCount = s.likesCount + 1 ∧
      (likePost u (likePost u s).1).2 =
        { status := "unliked", likesCount := s.likesCount } ∧
      (likePost u (likePost u s).1).1 = s) ∧
    (u ∈ s.likeUsers →
      (likePost u s).2 =
        { status := "unliked", likesCount := max 0 (s.likesCount - 1) } ∧
      (likePost u s).1.likeUsers = s.likeUsers.erase u ∧
      (s.likeUsers.Nodup → u ∉ (likePost u s).1.likeUsers) ∧
      (likePost u s).1.likesCount = max 0 (s.likesCount - 1)) := by
  constructor
  · intro h
    simp [likePost, h, List.erase_cons_head]
  · intro h
    refine ⟨by simp [likePost, h], by simp [likePost, h], fun hn => ?_,
      by simp [likePost, h]⟩
    simpa [likePost, h] using hn.not_mem_erase (a := u)

/-- Witness for C2 at a concrete state: user 7, empty like set. -/
theorem C2_like_toggle_witness :
    (likePost 7 { likesCount := 4, likeUsers := [3] }).2 =
      { status := "liked", likesCount := 5 } :=
  ((C2_like_toggle { likesCount := 4, likeUsers := [3] } 7).1 (by decide)).1

/-- One like-toggle call preserves the consistency invariant: like rows
unique per user, `likes_count` equal to the number of Like rows. -/
theorem likePost_invariant (u : Nat) (s : LikeState)
    (hn : s.likeUsers.Nodup) (hc : s.likesCount = s.likeUsers.length) :
    (likePost u s).1.likeUsers.Nodup ∧
      (likePost u s).1.likesCount = (likePost u s).1.likeUsers.length := by
  unfold likePost
  by_cases h : u ∈ s.likeUsers
  · have hpos : 0 < s.likeUsers.length := List.length_pos.mpr (List.ne_nil_of_mem h)
    simp only [if_pos h]
    refine ⟨hn.erase u, ?_⟩
    rw [List.length_erase_of_mem h]
    omega
  · simp only [if_neg h]
    exact ⟨List.nodup_cons.mpr ⟨h, hn⟩, by simp [hc]⟩

/-- C3: starting from a state where `likes_count` equals the number of
Like rows (with rows unique per user), after any finite sequence of
like-toggle calls `likes_count` again equals the number of
currently-existing Like rows. -/
theorem C3_likes_count_invariant (us : List Nat) (s : LikeState)
    (hn : s.likeUsers.Nodup) (hc : s.likesCount = s.likeUsers.length) :
    (runToggles us s).likesCount = (runToggles us s).likeUsers.length := by
  induction us generalizing s with
  | nil => exact hc
  | cons u rest ih =>
    have h := likePost_invariant u s hn hc
    exact ih ((likePost u s).1) h.1 h.2

/-- Witness for C3 at a concrete state and toggle sequence. -/
theorem C3_likes_count_invariant_witness :
    (runToggles [1, 2, 1, 3] { likesCount := 1, likeUsers := [9] }).likesCount =
      (runToggles [1, 2, 1, 3] { likesCount := 1, likeUsers := [9] }).likeUsers.length :=
  C3_likes_count_invariant [1, 2, 1, 3] { likesCount := 1, likeUsers := [9] }
    (by decide) (by decide)

/-- Engagement score used by trending:
`F('views_count') + F('likes_count') * 2`. -/
def engagement (p : Post) : Nat := p.viewsCount + p.likesCount * 2

/-- Descending order on engagement (`order_by('-engagement')`). -/
def engageGE (a b : Post) : Prop := engagement b ≤ engagement a

instance : DecidableRel engageGE := fun _ _ => Nat.decLe _ _

instance : IsTotal Post engageGE :=
  ⟨fun a b => le_total (engagement b) (engagement a)⟩

instance : IsTrans Post engageGE :=
  ⟨fun _ _ _ h1 h2 => le_trans h2 h1⟩

/-- Embedding of `PostViewSet.trending` (src/blog/views.py lines 139-147) on a request
with no query parameters: `trending` is not the `list` action so
`get_queryset` returns the whole table, which is then filtered to
published posts, annotated with the engagement score, ordered by it
descending and truncated to 10. -/
def trendingList (posts : List Post) : List Post :=
  ((posts.filter (fun p => p.status == "published")).insertionSort engageGE).take 10

/-- C4: `trending()` returns at most 10 posts, all published, in
descending engagement order, and every published post left out scores no
higher than any returned post (top-scoring selection). -/
theorem C4_trending (posts : List Post) :
    (trendingList posts).length ≤ 10 ∧
    (∀ p ∈ trendingList posts, p.status = "published") ∧
    (trendingList posts).Sorted engageGE ∧
    (∀ p ∈ posts, p.status = "published" → p ∉ trendingList posts →
      ∀ q ∈ trendingList posts, engagement p ≤ engagement q) := by
  set pub := posts.filter (fun p => p.status == "published") with hpub
  set srt := pub.insertionSort engageGE with hsrt
  have hperm : srt.Perm pub := List.perm_insertionSort engageGE pub
  have hsorted : srt.Sorted engageGE := List.sorted_insertionSort engageGE pub
  refine ⟨List.length_take_le 10 srt, ?_, ?_, ?_⟩
  · intro p hp
    have hmem : p ∈ pub := hperm.mem_iff.mp (List.mem_of_mem_take hp)
    have := (List.mem_filter.mp hmem).2
    simpa using this
  · exact List.Pairwise.sublist (List.take_sublist 10 srt) hsorted
  · intro p hp hstat hnot q hq
    have hmemp : p ∈ srt := by
      refine hperm.mem_iff.mpr (List.mem_filter.mpr ⟨hp, ?_⟩)
      simpa using hstat
    have hsplit : List.take 10 srt ++ List.drop 10 srt = srt :=
      List.take_append_drop 10 srt
    have hdrop : p ∈ List.drop 10 srt := by
      rcases (List.mem_append.mp (hsplit ▸ hmemp)) with h | h
      · exact absurd h hnot
      · exact h
    have hpw := hsorted
    rw [List.Sorted, ← hsplit, List.pairwise_append] at hpw
    exact hpw.2.2 q hq p hdrop

/-- Witness for C4 at a concrete post table. -/
theorem C4_trending_witness :
    cPubPost.status = "published" :=
  (C4_trending [cDraftPost, cPubPost]).2.1 cPubPost (by decide)

/-- A `Comment` row: `parent` is the nullable self-reference of the
threaded-reply tree. -/
structure Comment where
  id : Nat
  postId : Nat
  authorId : Nat
  content : String
  parent : Option Nat
  likesCount : Nat
deriving Repr, DecidableEq

/-- Outcome of the comment update handler: an HTTP error status with its
message, or the updated row. -/
inductive CommentUpdateResult where
  | error (httpStatus : Nat) (msg : String)
  | success (c : Comment)
deriving Repr, DecidableEq

/-- Embedding of `CommentViewSet.update` (src/blog/views.py lines 170-193): a 403 for
any caller other than the author, then the supplied content is stripped
and rejected with a 400 when empty, otherwise it replaces the comment's
content. -/
def updateComment (caller : Nat) (c : Comment) (content : String) :
    CommentUpdateResult :=
  if c.authorId ≠ caller then
    .error 403 "You can only edit your own comments"
  else
    let t := content.trim
    if t = "" then .error 400 "Comment content cannot be empty"
    else .success { c with content := t }

/-- C5: `update_comment` returns 403 whenever the caller is not the
author; for the author it returns 400 when the content is empty after
trimming, and otherwise succeeds, storing the trimmed content. -/
theorem C5_update_comment (caller : Nat) (c : Comment) (content : String) :
    (caller ≠ c.authorId →
      updateComment caller c content =
        .error 403 "You can only edit your own comments") ∧
    (caller = c.authorId → content.trim = "" →
      updateComment caller c content =
        .error 400 "Comment content cannot be empty") ∧
    (caller = c.authorId → content.trim ≠ "" →
      updateComment caller c content =
        .success { c with content := content.trim }) := by
  refine ⟨fun h => ?_, fun h he => ?_, fun h hne => ?_⟩
  · simp [updateComment, Ne.symm h]
  · simp [updateComment, h, he]
  · simp [updateComment, h, hne]

/-- A concrete comment authored by user 2, used in witnesses. -/
def cComment : Comment :=
  { id := 1, postId := 1, authorId := 2, content := "old",
    parent := none, likesCount := 0 }

/-- Witness for C5: a non-author caller is rejected with a 403. -/
theorem C5_update_comment_witness :
    updateComment 9 cComment "new text" =
      .error 403 "You can only edit your own comments" :=
  (C5_update_comment 9 cComment "new text").1 (by decide)

/-- A serialized comment with its recursively nested replies
(`CommentSerializer.get_replies`). -/
inductive CommentNode where
  | node (comment : Comment) (replies : List CommentNode)

/-- The comment at the root of a serialized node. -/
def CommentNode.comment : CommentNode → Comment
  | .node c _ => c

/-- Recursive reply serialization, with fuel bounding the recursion depth
(the serializer recurses through `obj.replies.all()`; `fuel` set to the
table size covers every acyclic tree). -/
def buildTree (comments : List Comment) : Nat → Comment → CommentNode
  | 0, c => .node c []
  | fuel + 1, c =>
    .node c ((comments.filter (fun x => x.parent == some c.id)).map
      (buildTree comments fuel))

/-- The post detail body (`PostDetailSerializer`): the post's fields plus
the nested top-level comments. -/
structure PostDetail where
  id : Nat
  title : String
  content : String
  status : String
  viewsCount : Nat
  likesCount : Nat
  comments : List CommentNode

/-- Embedding of `PostDetailSerializer` applied to post `p`
(`get_comments` keeps only comments of the post with `parent=None`). -/
def postDetail (comments : List Comment) (p : Post) : PostDetail :=
  { id := p.id, title := p.title, content := p.content, status := p.status,
    viewsCount := p.viewsCount, likesCount := p.likesCount,
    comments := (comments.filter (fun c => c.postId == p.id && c.parent == none)).map
      (buildTree comments comments.length) }

/-- Embedding of `PostViewSet.retrieve` (src/blog/views.py lines 68-76): fetch the row
by pk, set `views_count = F('views_count') + 1` on that row, reload, and
serialize with `PostDetailSerializer`. The handler reads nothing about
the caller (`IsAuthenticatedOrReadOnly` admits anonymous reads), so the
effect is the same for every caller. -/
def retrievePost (posts : List Post) (comments : List Comment) (pid : Nat) :
    List Post × Option PostDetail :=
  match posts.find? (fun p => p.id == pid) with
  | none => (posts, none)
  | some p =>
    (posts.map (fun q =>
       if q.id == pid then { q with viewsCount := q.viewsCount + 1 } else q),
     some (postDetail comments { p with viewsCount := p.viewsCount + 1 }))

/-- The root comment of a built tree is the comment it was built from. -/
theorem buildTree_comment (comments : List Comment) (fuel : Nat) (c : Comment) :
    (buildTree comments fuel c).comment = c := by
  cases fuel <;> rfl

/-- C9: retrieving an existing post `p` increments its `views_count` by
exactly 1, changes none of its other fields, leaves every other row
unchanged, and returns a detail carrying the incremented count, `p`'s
other fields, and the post's top-level comments (each the root of a
nested reply tree). -/
theorem C9_retrieve_increments_views (posts : List Post)
    (comments : List Comment) (p : Post)
    (hfind : posts.find? (fun q => q.id == p.id) = some p) :
    (∃ d, (retrievePost posts comments p.id).2 = some d ∧
      d.viewsCount = p.viewsCount + 1 ∧
      d.id = p.id ∧ d.title = p.title ∧ d.content = p.content ∧
      d.status = p.status ∧ d.likesCount = p.likesCount ∧
      d.comments.map CommentNode.comment =
        comments.filter (fun c => c.postId == p.id && c.parent == none)) ∧
    List.Forall₂ (fun q q' =>
        (q.id ≠ p.id → q' = q) ∧
        (q.id = p.id →
          q'.viewsCount = q.viewsCount + 1 ∧ q'.id = q.id ∧
          q'.authorId = q.authorId ∧ q'.title = q.title ∧
          q'.content = q.content ∧ q'.status = q.status ∧
          q'.likesCount = q.likesCount ∧ q'.tagIds = q.tagIds))
      posts (retrievePost posts comments p.id).1 := by
  constructor
  · refine ⟨postDetail comments { p with viewsCount := p.viewsCount + 1 },
      ?_, rfl, rfl, rfl, rfl, rfl, rfl, ?_⟩
    · simp [retrievePost, hfind]
    · show ((comments.filter _).map (buildTree comments comments.length)).map
        CommentNode.comment = _
      rw [List.map_map]
      exact (List.map_congr_left
        (fun c _ => buildTree_comment comments comments.length c)).trans
        (List.map_id _)
  · have hstate : (retrievePost posts comments p.id).1 =
        posts.map (fun q =>
          if q.id == p.id then { q with viewsCount := q.viewsCount + 1 } else q) := by
      simp [retrievePost, hfind]
    rw [hstate, List.forall₂_map_right_iff]
    rw [List.forall₂_same]
    intro q _
    constructor
    · intro hne
      simp [show (q.id == p.id) = false from beq_eq_false_iff_ne.mpr hne]
    · intro heq
      simp [show (q.id == p.id) = true from beq_iff_eq.mpr heq]

/-- Witness for C9 at a concrete one-row table. -/
theorem C9_retrieve_increments_views_witness :
    ∃ d, (retrievePost [cPubPost] [cComment] cPubPost.id).2 = some d ∧
      d.viewsCount = cPubPost.viewsCount + 1 ∧
      d.id = cPubPost.id ∧ d.title = cPubPost.title ∧
      d.content = cPubPost.content ∧ d.status = cPubPost.status ∧
      d.likesCount = cPubPost.likesCount ∧
      d.comments.map CommentNode.comment =
        [cComment].filter (fun c => c.postId == cPubPost.id && c.parent == none) :=
  (C9_retrieve_increments_views [cPubPost] [cComment] cPubPost (by decide)).1

/-- A `User` row of the identity module (auth fields used here). -/
structure UserRow where
  id : Nat
  username : String
  email : String
deriving Repr, DecidableEq

/-- Outcome of the profile update: a field validation error, or the
resulting username, bio and profile picture. -/
inductive ProfileUpdateResult where
  | validationError (field msg : String)
  | ok (username : String) (bio : String) (profilePicture : Option String)
deriving Repr, DecidableEq

/-- Embedding of `UpdateUserProfileSerializer.update` (src/accounts/serializers.py
lines 53-72). `users` is the `User` table (the caller included), `cur`
the caller's current username; `usernameReq`, `bioReq`, `picReq` the
optional request fields, `bio`/`pic` the stored profile fields. The
username branch runs only when the requested name is non-empty
(`if username`) and differs from the current one; the taken-check
queries the whole table. -/
def updateUserProfile (users : List UserRow) (cur : String)
    (usernameReq : Option String) (bioReq : Option String)
    (picReq : Option (Option String)) (bio : String) (pic : Option String) :
    ProfileUpdateResult :=
  let newName : Option String :=
    match usernameReq with
    | some username =>
      if username ≠ "" ∧ username ≠ cur then
        if users.any (fun u => u.username == username) then none
        else some username
      else some cur
    | none => some cur
  match newName with
  | none => .validationError "username" "This username is already taken."
  | some un =>
    .ok un (match bioReq with | some b => b | none => bio)
      (match picReq with | some q => q | none => pic)

/-- C10: requesting one's own current username succeeds — the taken-check
is skipped and the username is unchanged, even though the caller's own
row makes the name "taken" in the table — and the taken error can arise
only when the requested name differs from the current one. -/
theorem C10_profile_self_username (users : List UserRow) (cur : String)
    (bioReq : Option String) (picReq : Option (Option String))
    (bio : String) (pic : Option String) :
    (∃ b q, updateUserProfile users cur (some cur) bioReq picReq bio pic =
      .ok cur b q) ∧
    (∀ req f m,
      updateUserProfile users cur (some req) bioReq picReq bio pic =
        .validationError f m → req ≠ cur) := by
  constructor
  · refine ⟨match bioReq with | some b => b | none => bio,
      match picReq with | some q => q | none => pic, ?_⟩
    simp [updateUserProfile]
  · intro req f m h hreq
    subst hreq
    simp [updateUserProfile] at h

/-- Witness for C10: caller "alice" re-submits "alice" while the table
contains that name; the update succeeds with the name unchanged. -/
theorem C10_profile_self_username_witness :
    ∃ b q, updateUserProfile [⟨1, "alice", "a@x.com"⟩] "alice" (some "alice")
      none none "bio" none = .ok "alice" b q :=
  (C10_profile_self_username [⟨1, "alice", "a@x.com"⟩] "alice"
    none none "bio" none).1

/-- A created account row, password stored only as a hash. -/
structure AccountUser where
  id : Nat
  username : String
  email : String
  passwordHash : String
deriving Repr, DecidableEq

/-- Outcome of registration: a validation error, or the serialized
response as the list of (field, value) pairs that are readable
(`password` and `password2` are `write_only`, so the representation
holds exactly `username` and `email`). -/
inductive RegisterResult where
  | validationError (field msg : String)
  | created (fields : List (String × String))
deriving Repr, DecidableEq

/-- Embedding of `RegisterSerializer` (src/accounts/serializers.py lines 8-36):
field validators run first — the declared `UniqueValidator` on `email`,
the `User` model's unique `username`, and the password policy
`validate_password` (a framework policy, passed in as `passwordOk`) —
then `validate` rejects a password/confirmation mismatch; only a fully
valid input reaches `create`, which inserts the row with the hashed
password (`set_password`, passed in as `hash`). -/
def registerUser (passwordOk : String → Bool) (hash : String → String)
    (users : List AccountUser) (nextId : Nat)
    (username email password password2 : String) :
    List AccountUser × RegisterResult :=
  if users.any (fun u => u.username == username) then
    (users, .validationError "username" "A user with that username already exists.")
  else if users.any (fun u => u.email == email) then
    (users, .validationError "email" "This field must be unique.")
  else if ¬ passwordOk password then
    (users, .validationError "password" "This password does not satisfy the policy.")
  else if password ≠ password2 then
    (users, .validationError "password" "Password fields didn't match.")
  else
    (⟨nextId, username, email, hash password⟩ :: users,
     .created [("username", username), ("email", email)])

/-- C7: registration with an email already in use fails with a
validation error and creates no `User` row; so does a
password/confirmation mismatch; and a successful response exposes
exactly the `username` and `email` fields — never a password field. -/
theorem C7_register (passwordOk : String → Bool) (hash : String → String)
    (users : List AccountUser) (nextId : Nat)
    (username email password password2 : String) :
    ((∃ u ∈ users, u.email = email) →
      (∃ f m, (registerUser passwordOk hash users nextId
          username email password password2).2 = .validationError f m) ∧
      (registerUser passwordOk hash users nextId
          username email password password2).1 = users) ∧
    (password ≠ password2 →
      (∃ f m, (registerUser passwordOk hash users nextId
          username email password password2).2 = .validationError f m) ∧
      (registerUser passwordOk hash users nextId
          username email password password2).1 = users) ∧
    (∀ fields, (registerUser passwordOk hash users nextId
          username email password password2).2 = .created fields →
      fields.map Prod.fst = ["username", "email"]) := by
  unfold registerUser
  by_cases h1 : users.any (fun u => u.username == username)
  · simp only [if_pos h1]
    exact ⟨fun _ => ⟨⟨_, _, rfl⟩, by trivial⟩, fun _ => ⟨⟨_, _, rfl⟩, by trivial⟩,
      fun fields h => by cases h⟩
  · simp only [if_neg h1]
    by_cases h2 : users.any (fun u => u.email == email)
    · simp only [if_pos h2]
      exact ⟨fun _ => ⟨⟨_, _, rfl⟩, by trivial⟩, fun _ => ⟨⟨_, _, rfl⟩, by trivial⟩,
        fun fields h => by cases h⟩
    · simp only [if_neg h2]
      have hmail : ¬ ∃ u ∈ users, u.email = email := by
        intro ⟨u, hu, he⟩
        exact h2 (List.any_eq_true.mpr ⟨u, hu, beq_iff_eq.mpr he⟩)
      by_cases h3 : ¬ passwordOk password
      · simp only [if_pos h3]
        exact ⟨fun he => absurd he hmail, fun _ => ⟨⟨_, _, rfl⟩, by trivial⟩,
          fun fields h => by cases h⟩
      · simp only [if_neg h3]
        by_cases h4 : password ≠ password2
        · simp only [if_pos h4]
          exact ⟨fun he => absurd he hmail, fun _ => ⟨⟨_, _, rfl⟩, by trivial⟩,
            fun fields h => by cases h⟩
        · simp only [if_neg h4]
          exact ⟨fun he => absurd he hmail, fun hp => absurd hp h4,
            fun fields h => by cases h; rfl⟩

/-- Witness for C7: registering a second account with the email already
in the table fails and leaves the table unchanged. -/
theorem C7_register_witness :
    (∃ f m, (registerUser (fun _ => true) (fun s => s)
        [⟨1, "alice", "a@x.com", "h"⟩] 2 "bob" "a@x.com" "pw" "pw").2 =
      .validationError f m) ∧
    (registerUser (fun _ => true) (fun s => s)
        [⟨1, "alice", "a@x.com", "h"⟩] 2 "bob" "a@x.com" "pw" "pw").1 =
      [⟨1, "alice", "a@x.com", "h"⟩] :=
  (C7_register (fun _ => true) (fun s => s) [⟨1, "alice", "a@x.com", "h"⟩]
      2 "bob" "a@x.com" "pw" "pw").1
    ⟨⟨1, "alice", "a@x.com", "h"⟩, by decide, rfl⟩

/-- Normalization applied to each supplied tag name before
lookup-or-create: `tag_name.strip().lower()`. -/
def normalizeTag (s : String) : String := s.trim.toLower

/-- The `Tag` table together with its id sequence. -/
structure TagStore where
  tags : List Tag
  nextId : Nat
deriving Repr, DecidableEq

/-- Embedding of `Tag.objects.get_or_create(name=...)`: return the row with that name
if one exists, else insert a fresh one. The slug derivation lives in the
missing model module, so it is passed in as `slugify`. -/
def getOrCreateTag (slugify : String → String) (st : TagStore) (name : String) :
    Tag × TagStore :=
  match st.tags.find? (fun t => t.name == name) with
  | some t => (t, st)
  | none =>
    let t : Tag := ⟨st.nextId, name, slugify name⟩
    (t, ⟨st.tags ++ [t], st.nextId + 1⟩)

/-- One `post.tags.add(tag)` step: the M2M relation is a set, so adding
an already-related tag is a no-op. -/
def addTagId (post : Post) (tid : Nat) : Post :=
  { post with
    tagIds := if tid ∈ post.tagIds then post.tagIds else post.tagIds ++ [tid] }

/-- One iteration of the tag loop in the serializer `update`. -/
def tagStep (slugify : String → String) (acc : Post × TagStore) (nm : String) :
    Post × TagStore :=
  let r := getOrCreateTag slugify acc.2 (normalizeTag nm)
  (addTagId acc.1 r.1.id, r.2)

/-- Tag branch of `PostCreateUpdateSerializer.update`
(src/blog/serializers.py lines 137-152): when `tags` is supplied, the
post's tag relation is cleared and each supplied name is normalized and
looked-up-or-created, then added. -/
def updatePostTags (slugify : String → String) (st : TagStore) (post : Post)
    (tagNames : Option (List String)) : Post × TagStore :=
  match tagNames with
  | none => (post, st)
  | some names =>
    names.foldl (tagStep slugify) ({ post with tagIds := [] }, st)

/-- Lookup-or-create returns a row with the requested name, present in the
resulting table, and only ever grows the table. -/
theorem getOrCreateTag_spec (slugify : String → String) (st : TagStore)
    (name : String) :
    (getOrCreateTag slugify st name).1.name = name ∧
    (getOrCreateTag slugify st name).1 ∈ (getOrCreateTag slugify st name).2.tags ∧
    st.tags ⊆ (getOrCreateTag slugify st name).2.tags := by
  unfold getOrCreateTag
  cases hf : st.tags.find? (fun t => t.name == name) with
  | none =>
    exact ⟨rfl, List.mem_append_right _ (List.mem_singleton_self _),
      List.subset_append_left _ _⟩
  | some t =>
    have h0 := List.find?_some hf
    have h1 : t.name = name := by simpa using h0
    have h2 : t ∈ st.tags := List.mem_of_find?_eq_some hf
    exact ⟨h1, h2, fun _ h => h⟩

/-- The added id is in the relation afterwards. -/
theorem mem_addTagId_self (post : Post) (tid : Nat) :
    tid ∈ (addTagId post tid).tagIds := by
  by_cases h : tid ∈ post.tagIds <;>
    simp [addTagId, h]

/-- Adding only grows the relation. -/
theorem addTagId_subset (post : Post) (tid : Nat) :
    post.tagIds ⊆ (addTagId post tid).tagIds := by
  by_cases h : tid ∈ post.tagIds <;>
    simp [addTagId, h, List.subset_append_left]

/-- Everything in the relation after an `add` was there before or is the
added id. -/
theorem mem_addTagId (post : Post) (tid x : Nat)
    (hx : x ∈ (addTagId post tid).tagIds) : x ∈ post.tagIds ∨ x = tid := by
  by_cases h : tid ∈ post.tagIds <;> simp [addTagId, h] at hx <;> tauto

/-- The tag loop only grows the post's relation. -/
theorem foldl_tagStep_post_mono (slugify : String → String) (names : List String)
    (acc : Post × TagStore) :
    acc.1.tagIds ⊆ (names.foldl (tagStep slugify) acc).1.tagIds := by
  induction names generalizing acc with
  | nil => exact fun _ h => h
  | cons nm rest ih =>
    exact List.Subset.trans (addTagId_subset _ _) (ih (tagStep slugify acc nm))

/-- The tag loop only grows the tag table. -/
theorem foldl_tagStep_store_mono (slugify : String → String) (names : List String)
    (acc : Post × TagStore) :
    acc.2.tags ⊆ (names.foldl (tagStep slugify) acc).2.tags := by
  induction names generalizing acc with
  | nil => exact fun _ h => h
  | cons nm rest ih =>
    exact List.Subset.trans (getOrCreateTag_spec slugify acc.2 (normalizeTag nm)).2.2
      (ih (tagStep slugify acc nm))

/-- Every supplied name ends up represented: the final table holds a tag
with the normalized name whose id is in the post's final relation. -/
theorem foldl_tagStep_complete (slugify : String → String) (names : List String)
    (acc : Post × TagStore) :
    ∀ nm ∈ names,
      ∃ t ∈ (names.foldl (tagStep slugify) acc).2.tags,
        t.name = normalizeTag nm ∧
        t.id ∈ (names.foldl (tagStep slugify) acc).1.tagIds := by
  induction names generalizing acc with
  | nil => intro nm h; cases h
  | cons nm0 rest ih =>
    intro nm hm
    rcases List.mem_cons.mp hm with heq | hrest
    · subst heq
      obtain ⟨hname, hmem, _⟩ := getOrCreateTag_spec slugify acc.2 (normalizeTag nm)
      refine ⟨(getOrCreateTag slugify acc.2 (normalizeTag nm)).1,
        foldl_tagStep_store_mono slugify rest (tagStep slugify acc nm) hmem,
        hname, ?_⟩
      exact foldl_tagStep_post_mono slugify rest (tagStep slugify acc nm)
        (mem_addTagId_self _ _)
    · exact ih (tagStep slugify acc nm0) nm hrest

/-- Every id in the post's final relation either was there at the start
of the loop or is the id of a table row named after a supplied name. -/
theorem foldl_tagStep_sound (slugify : String → String) (names : List String)
    (acc : Post × TagStore) :
    ∀ tid ∈ (names.foldl (tagStep slugify) acc).1.tagIds,
      tid ∈ acc.1.tagIds ∨
        ∃ t ∈ (names.foldl (tagStep slugify) acc).2.tags,
          t.id = tid ∧ ∃ nm ∈ names, t.name = normalizeTag nm := by
  induction names generalizing acc with
  | nil => exact fun tid h => Or.inl h
  | cons nm0 rest ih =>
    intro tid htid
    rcases ih (tagStep slugify acc nm0) tid htid with hbase | ⟨t, htmem, hid, nm, hnm, hname⟩
    · rcases mem_addTagId _ _ _ hbase with hold | hnew
      · exact Or.inl hold
      · obtain ⟨hname, hmem, _⟩ := getOrCreateTag_spec slugify acc.2 (normalizeTag nm0)
        refine Or.inr ⟨(getOrCreateTag slugify acc.2 (normalizeTag nm0)).1,
          foldl_tagStep_store_mono slugify rest (tagStep slugify acc nm0) hmem,
          hnew.symm, nm0, List.mem_cons_self nm0 rest, hname⟩
    · exact Or.inr ⟨t, htmem, hid, nm, List.mem_cons_of_mem nm0 hnm, hname⟩

/-- C8: when `tag_names` is provided, the post's resulting tag set
consists exactly of the lookup-or-create results of the supplied names,
each normalized (trimmed, lower-cased) first, and the previous tag set
is fully replaced (the result does not depend on it). -/
theorem C8_update_replaces_tags (slugify : String → String) (st : TagStore)
    (post : Post) (names : List String) :
    (∀ nm ∈ names,
      ∃ t ∈ (updatePostTags slugify st post (some names)).2.tags,
        t.name = normalizeTag nm ∧
        t.id ∈ (updatePostTags slugify st post (some names)).1.tagIds) ∧
    (∀ tid ∈ (updatePostTags slugify st post (some names)).1.tagIds,
      ∃ t ∈ (updatePostTags slugify st post (some names)).2.tags,
        t.id = tid ∧ ∃ nm ∈ names, t.name = normalizeTag nm) ∧
    (∀ prev, updatePostTags slugify st { post with tagIds := prev } (some names) =
      updatePostTags slugify st post (some names)) := by
  refine ⟨?_, ?_, fun prev => rfl⟩
  · exact foldl_tagStep_complete slugify names ({ post with tagIds := [] }, st)
  · intro tid htid
    rcases foldl_tagStep_sound slugify names ({ post with tagIds := [] }, st)
        tid htid with hbase | h
    · cases hbase
    · exact h

/-- Witness for C8 at a concrete input: updating with the single name
"  Lean  " yields a tag named "lean" attached to the post. -/
theorem C8_update_replaces_tags_witness :
    ∃ t ∈ (updatePostTags (fun s => s) ⟨[], 1⟩ cPubPost (some ["  Lean  "])).2.tags,
      t.name = normalizeTag "  Lean  " ∧
      t.id ∈ (updatePostTags (fun s => s) ⟨[], 1⟩ cPubPost (some ["  Lean  "])).1.tagIds :=
  (C8_update_replaces_tags (fun s => s) ⟨[], 1⟩ cPubPost ["  Lean  "]).1
    "  Lean  " (List.mem_singleton_self _)

/-- Is comment `c` a direct reply to an already-collected comment, not
itself collected yet? One test of the delete cascade's frontier. -/
def childNew (acc : List Nat) (c : Comment) : Bool :=
  (match c.parent with
   | some p => decide (p ∈ acc)
   | none => false) && !(decide (c.id ∈ acc))

/-- One round of the cascade: append the ids of the fresh direct
replies of the collected set. -/
def closeStep (comments : List Comment) (acc : List Nat) : List Nat :=
  acc ++ (comments.filter (childNew acc)).map (fun c => c.id)

/-- Modelled from the spec: the id set of the entire reply subtree
rooted at `rootId` (the `on_delete=CASCADE` declaration lives in the
models module, which is not among the sources; the spec states that
deleting a comment deletes its entire reply subtree). Computed as the
closure of the direct-reply relation, which reaches a fixpoint within
`comments.length + 1` rounds. -/
def subtreeIds (comments : List Comment) (rootId : Nat) : List Nat :=
  (closeStep comments)^[comments.length + 1] [rootId]

/-- Outcome of the comment delete handler. -/
inductive DeleteResult where
  | error (httpStatus : Nat) (msg : String)
  | noContent
deriving Repr, DecidableEq

/-- Embedding of `CommentViewSet.destroy` (src/blog/views.py lines 199-212): a 403
for any caller other than the author; otherwise `comment.delete()`
removes the comment and, by the cascade, its whole reply subtree. -/
def destroyComment (caller : Nat) (comments : List Comment) (c : Comment) :
    List Comment × DeleteResult :=
  if c.authorId ≠ caller then
    (comments, .error 403 "You can only delete your own comments")
  else
    (comments.filter (fun x => !(decide (x.id ∈ subtreeIds comments c.id))),
     .noContent)

/-- Predicate stating that `x` lies in the reply subtree rooted at `rootId`: the
reflexive-transitive closure of the direct-reply relation, stated
independently of the cascade computation. -/
inductive Desc (comments : List Comment) (rootId : Nat) : Nat → Prop where
  | refl : Desc comments rootId rootId
  | step (c : Comment) (pid : Nat) :
      c ∈ comments → c.parent = some pid → Desc comments rootId pid →
      Desc comments rootId c.id

/-- A cascade round only grows the collected set. -/
theorem subset_closeStep (comments : List Comment) (acc : List Nat) :
    acc ⊆ closeStep comments acc :=
  List.subset_append_left _ _

/-- Iterated cascade rounds only grow the collected set. -/
theorem subset_iterate_closeStep (comments : List Comment) (n : Nat)
    (acc : List Nat) : acc ⊆ (closeStep comments)^[n] acc := by
  induction n generalizing acc with
  | zero => exact fun _ h => h
  | succ k ih =>
    rw [Function.iterate_succ_apply]
    exact List.Subset.trans (subset_closeStep comments acc) (ih _)

/-- Everything a cascade round collects is a descendant, provided the
set so far holds only descendants. -/
theorem closeStep_sound (comments : List Comment) (rootId : Nat)
    (acc : List Nat) (h : ∀ i ∈ acc, Desc comments rootId i) :
    ∀ i ∈ closeStep comments acc, Desc comments rootId i := by
  intro i hi
  rcases List.mem_append.mp hi with hl | hr
  · exact h i hl
  · obtain ⟨c, hc, rfl⟩ := List.mem_map.mp hr
    have hcf := List.mem_filter.mp hc
    have hchild := hcf.2
    unfold childNew at hchild
    cases hp : c.parent with
    | none => rw [hp] at hchild; simp at hchild
    | some p =>
      rw [hp] at hchild
      simp only [Bool.and_eq_true, decide_eq_true_eq] at hchild
      exact Desc.step c p hcf.1 hp (h p hchild.1)

/-- Iterated version of `closeStep_sound`. -/
theorem iterate_closeStep_sound (comments : List Comment) (rootId : Nat)
    (n : Nat) (acc : List Nat) (h : ∀ i ∈ acc, Desc comments rootId i) :
    ∀ i ∈ (closeStep comments)^[n] acc, Desc comments rootId i := by
  induction n generalizing acc with
  | zero => exact h
  | succ k ih =>
    rw [Function.iterate_succ_apply]
    exact ih _ (closeStep_sound comments rootId acc h)

/-- A cascade round preserves freedom from duplicates (comment ids are
unique in the table). -/
theorem closeStep_nodup (comments : List Comment)
    (hids : (comments.map (fun x => x.id)).Nodup)
    (acc : List Nat) (hacc : acc.Nodup) : (closeStep comments acc).Nodup := by
  rw [closeStep, List.nodup_append]
  refine ⟨hacc, ?_, ?_⟩
  · exact List.Nodup.sublist (List.Sublist.map _ (List.filter_sublist comments)) hids
  · intro a ha hb
    obtain ⟨c, hc, rfl⟩ := List.mem_map.mp hb
    have hcf := (List.mem_filter.mp hc).2
    unfold childNew at hcf
    simp only [Bool.and_eq_true, Bool.not_eq_true', decide_eq_false_iff_not] at hcf
    exact hcf.2 ha

/-- Collected ids stay within the root plus the table's ids. -/
theorem closeStep_subset_univ (comments : List Comment) (rootId : Nat)
    (acc : List Nat) (h : acc ⊆ rootId :: comments.map (fun x => x.id)) :
    closeStep comments acc ⊆ rootId :: comments.map (fun x => x.id) := by
  intro a ha
  rcases List.mem_append.mp ha with hl | hr
  · exact h hl
  · obtain ⟨c, hc, rfl⟩ := List.mem_map.mp hr
    exact List.mem_cons_of_mem _
      (List.mem_map.mpr ⟨c, List.mem_of_mem_filter hc, rfl⟩)

/-- A round that changes the set strictly grows it. -/
theorem closeStep_ne_length (comments : List Comment) (acc : List Nat)
    (h : closeStep comments acc ≠ acc) :
    acc.length + 1 ≤ (closeStep comments acc).length := by
  rw [closeStep] at h ⊢
  rw [List.length_append]
  rcases Nat.eq_zero_or_pos
      ((comments.filter (childNew acc)).map (fun c => c.id)).length with h0 | hpos
  · refine absurd ?_ h
    rw [List.length_eq_zero] at h0
    rw [h0, List.append_nil]
  · omega

/-- While no round has reached a fixpoint, the collected set grows by at
least one id per round. -/
theorem iterate_closeStep_growth (comments : List Comment) (x : List Nat)
    (n : Nat)
    (h : ∀ k < n, (closeStep comments)^[k + 1] x ≠ (closeStep comments)^[k] x) :
    x.length + n ≤ ((closeStep comments)^[n] x).length := by
  induction n with
  | zero => simp
  | succ m ih =>
    have h1 := ih (fun k hk => h k (lt_trans hk (Nat.lt_succ_self m)))
    have h2 := h m (Nat.lt_succ_self m)
    rw [Function.iterate_succ_apply'] at h2 ⊢
    have h3 := closeStep_ne_length comments ((closeStep comments)^[m] x) h2
    omega

/-- Iterated rounds preserve freedom from duplicates. -/
theorem iterate_closeStep_nodup (comments : List Comment)
    (hids : (comments.map (fun x => x.id)).Nodup) (n : Nat)
    (acc : List Nat) (hacc : acc.Nodup) :
    ((closeStep comments)^[n] acc).Nodup := by
  induction n generalizing acc with
  | zero => exact hacc
  | succ k ih =>
    rw [Function.iterate_succ_apply]
    exact ih _ (closeStep_nodup comments hids acc hacc)

/-- Iterated rounds stay within the root plus the table's ids. -/
theorem iterate_closeStep_subset_univ (comments : List Comment) (rootId : Nat)
    (n : Nat) (acc : List Nat)
    (h : acc ⊆ rootId :: comments.map (fun x => x.id)) :
    (closeStep comments)^[n] acc ⊆ rootId :: comments.map (fun x => x.id) := by
  induction n generalizing acc with
  | zero => exact h
  | succ k ih =>
    rw [Function.iterate_succ_apply]
    exact ih _ (closeStep_subset_univ comments rootId acc h)

/-- Once a round is a fixpoint, every later iterate equals it. -/
theorem iterate_fix_propagate (f : List Nat → List Nat) (x : List Nat)
    (k n : Nat) (hk : f (f^[k] x) = f^[k] x) (hkn : k ≤ n) :
    f^[n] x = f^[k] x := by
  obtain ⟨m, rfl⟩ := Nat.exists_eq_add_of_le hkn
  rw [Nat.add_comm, Function.iterate_add_apply]
  exact Function.iterate_fixed hk m

/-- After `comments.length + 1` rounds the cascade closure is a
fixpoint: the collected set is nodup inside a universe of
`comments.length + 1` ids, so not every round can grow it. -/
theorem subtreeIds_fix (comments : List Comment) (rootId : Nat)
    (hids : (comments.map (fun x => x.id)).Nodup) :
    closeStep comments (subtreeIds comments rootId) =
      subtreeIds comments rootId := by
  by_contra hne
  have hstep : ∀ k < comments.length + 1,
      (closeStep comments)^[k + 1] [rootId] ≠
        (closeStep comments)^[k] [rootId] := by
    intro k hk heq
    have hfix : closeStep comments ((closeStep comments)^[k] [rootId]) =
        (closeStep comments)^[k] [rootId] :=
      (Function.iterate_succ_apply' (closeStep comments) k [rootId]).symm.trans heq
    have hprop := iterate_fix_propagate (closeStep comments) [rootId]
      k (comments.length + 1) hfix (le_of_lt hk)
    refine hne ?_
    rw [subtreeIds, hprop]
    exact hfix
  have hgrow := iterate_closeStep_growth comments [rootId]
    (comments.length + 1) hstep
  have hnodup := iterate_closeStep_nodup comments hids
    (comments.length + 1) [rootId] (List.nodup_singleton rootId)
  have hsubu := iterate_closeStep_subset_univ comments rootId
    (comments.length + 1) [rootId] (by
      intro a ha
      rw [List.mem_singleton] at ha
      subst ha
      exact List.mem_cons_self _ _)
  have hlen := (List.subperm_of_subset hnodup hsubu).length_le
  simp only [List.length_cons, List.length_map, List.length_singleton] at hgrow hlen
  omega

/-- The computed subtree is closed under the direct-reply relation. -/
theorem subtreeIds_closed (comments : List Comment) (rootId : Nat)
    (hids : (comments.map (fun x => x.id)).Nodup) :
    ∀ c ∈ comments, ∀ p, c.parent = some p →
      p ∈ subtreeIds comments rootId → c.id ∈ subtreeIds comments rootId := by
  intro c hc p hp hpmem
  by_cases hnot : c.id ∈ subtreeIds comments rootId
  · exact hnot
  · have hchild : childNew (subtreeIds comments rootId) c = true := by
      unfold childNew
      rw [hp]
      simp [hpmem, hnot]
    have hmem : c.id ∈ closeStep comments (subtreeIds comments rootId) :=
      List.mem_append_right _
        (List.mem_map.mpr ⟨c, List.mem_filter.mpr ⟨hc, hchild⟩, rfl⟩)
    rw [subtreeIds_fix comments rootId hids] at hmem
    exact hmem

/-- The root id is collected. -/
theorem root_mem_subtreeIds (comments : List Comment) (rootId : Nat) :
    rootId ∈ subtreeIds comments rootId :=
  subset_iterate_closeStep comments (comments.length + 1) [rootId]
    (List.mem_singleton_self rootId)

/-- Completeness: every descendant id is collected by the cascade. -/
theorem desc_mem_subtreeIds (comments : List Comment) (rootId : Nat)
    (hids : (comments.map (fun x => x.id)).Nodup) (i : Nat)
    (hdesc : Desc comments rootId i) : i ∈ subtreeIds comments rootId := by
  induction hdesc with
  | refl => exact root_mem_subtreeIds comments rootId
  | step c pid hc hp _ ih =>
    exact subtreeIds_closed comments rootId hids c hc pid hp ih

/-- Soundness: every collected id is a descendant id. -/
theorem mem_subtreeIds_desc (comments : List Comment) (rootId : Nat) (i : Nat)
    (hmem : i ∈ subtreeIds comments rootId) : Desc comments rootId i := by
  refine iterate_closeStep_sound comments rootId (comments.length + 1)
    [rootId] ?_ i hmem
  intro j hj
  rw [List.mem_singleton] at hj
  subst hj
  exact Desc.refl

/-- C6: deleting a comment as a non-author fails with a 403 and changes
nothing; as the author it succeeds with 204 and removes exactly the
comment together with every transitive descendant reply: a stored
comment survives iff it is not in the reply subtree, nothing new
appears, and the target itself is gone. -/
theorem C6_destroy_cascade (caller : Nat) (comments : List Comment)
    (c : Comment) (hids : (comments.map (fun x => x.id)).Nodup) :
    (caller ≠ c.authorId →
      destroyComment caller comments c =
        (comments, .error 403 "You can only delete your own comments")) ∧
    (caller = c.authorId →
      (destroyComment caller comments c).2 = .noContent ∧
      (∀ x ∈ comments, x ∈ (destroyComment caller comments c).1 ↔
        ¬ Desc comments c.id x.id) ∧
      (∀ x ∈ (destroyComment caller comments c).1, x ∈ comments) ∧
      (c ∈ comments → c ∉ (destroyComment caller comments c).1)) := by
  constructor
  · intro h
    simp [destroyComment, Ne.symm h]
  · intro h
    have hres : (destroyComment caller comments c).1 =
        comments.filter (fun x => !(decide (x.id ∈ subtreeIds comments c.id))) := by
      simp [destroyComment, h]
    refine ⟨by simp [destroyComment, h], ?_, ?_, ?_⟩
    · intro x hx
      rw [hres]
      constructor
      · intro hmem hdesc
        have hflt := (List.mem_filter.mp hmem).2
        simp only [Bool.not_eq_true', decide_eq_false_iff_not] at hflt
        exact hflt (desc_mem_subtreeIds comments c.id hids x.id hdesc)
      · intro hnd
        refine List.mem_filter.mpr ⟨hx, ?_⟩
        simp only [Bool.not_eq_true', decide_eq_false_iff_not]
        exact fun hm => hnd (mem_subtreeIds_desc comments c.id x.id hm)
    · intro x hx
      rw [hres] at hx
      exact List.mem_of_mem_filter hx
    · intro hc hmem
      rw [hres] at hmem
      have hflt := (List.mem_filter.mp hmem).2
      simp only [Bool.not_eq_true', decide_eq_false_iff_not] at hflt
      exact hflt (root_mem_subtreeIds comments c.id)

/-- Witness for C6: a non-author delete of the concrete comment is
rejected and the table is untouched. -/
theorem C6_destroy_cascade_witness :
    destroyComment 9 [cComment] cComment =
      ([cComment], .error 403 "You can only delete your own comments") :=
  (C6_destroy_cascade 9 [cComment] cComment (by decide)).1 (by decide)

end Blog
